import Mathlib

/-!
Verification of the go_live_transcription service: a shallow embedding of its
per-call pipeline (recognizer forced finalization, signaling target set,
model registry reference counting, translation fan-out, adaptive send
timeouts, poll scheduling, audio downsampling) with theorems checking the
specification's claims against the code.

Conventions: Go maps are association lists (List (String × β)); Go sets of
strings are duplicate-free lists maintained by insertSet / eraseStr; machine
integers are Int with explicit wrap-around where the Go code can overflow;
channels and goroutines are made explicit as values and state transitions.
-/

set_option maxRecDepth 8192

/-! ### Association-list maps (Go map semantics) -/

/-- Lookup of a key in an association list (first binding wins). -/
def alookup {β : Type} : List (String × β) → String → Option β
  | [], _ => none
  | (k', v) :: t, k => if k' = k then some v else alookup t k

/-- Go map assignment m[k] = v: replace the binding if the key is present,
append it otherwise. -/
def ainsert {β : Type} : List (String × β) → String → β → List (String × β)
  | [], k, v => [(k, v)]
  | (k', v') :: t, k, v =>
      if k' = k then (k, v) :: t else (k', v') :: ainsert t k v

/-- Go map deletion delete(m, k): drop every binding of the key. -/
def aerase {β : Type} : List (String × β) → String → List (String × β)
  | [], _ => []
  | (k', v) :: t, k => if k' = k then aerase t k else (k', v) :: aerase t k

/-- The keys of an association list. -/
def akeys {β : Type} (l : List (String × β)) : List String :=
  l.map Prod.fst

/-- The values (codomain) of an association list. -/
def avalues {β : Type} (l : List (String × β)) : List β :=
  l.map Prod.snd

/-- Go set insert s[x] = struct...: a no-op when already present. -/
def insertSet (l : List String) (x : String) : List String :=
  if x ∈ l then l else l ++ [x]

/-- Go set/map delete for plain string sets. -/
def eraseStr : List String → String → List String
  | [], _ => []
  | y :: t, x => if y = x then eraseStr t x else y :: eraseStr t x

/-! ### Recognizer (internal/vosk/recognizer.go)

The Vosk recognizer state that FeedAudio manipulates. The native handle is
modelled by an activity flag plus a generation counter: resetRecognizer frees
the old handle and creates a new one (generation + 1), or leaves the
recognizer inactive when recreation fails; Close frees the handle. Each feed
consumes one oracle input: whether AcceptWaveform reported a natural final,
and whether a recreation attempted during this feed would succeed. -/

/-- Constant maxChunksBeforeForceFinalize of recognizer.go. -/
def maxChunksBeforeForceFinalize : Nat := 500

structure RecState where
  active : Bool
  gen : Nat
  feedCount : Nat
  chunksSinceFinal : Nat
  deriving DecidableEq

/-- Which of the three emission branches of FeedAudio ran (silent: the
recognizer handle was nil and the feed was a no-op). -/
inductive EmissionKind where
  | naturalFinal
  | forcedFinal
  | interim
  | silent
  deriving DecidableEq

/-- Recognizer.FeedAudio: increment the counters; on a natural final emit a
final and zero chunksSinceFinal; otherwise, when chunksSinceFinal reached
maxChunksBeforeForceFinalize, emit a forced final, zero the counter and
destroy-and-recreate the handle (resetRecognizer); otherwise emit a partial
result. -/
def feedAudio (st : RecState) (naturalFinal : Bool) (resetOk : Bool) :
    RecState × EmissionKind :=
  if st.active = false then (st, EmissionKind.silent)
  else if naturalFinal then
    ({ st with feedCount := st.feedCount + 1, chunksSinceFinal := 0 },
     EmissionKind.naturalFinal)
  else if maxChunksBeforeForceFinalize ≤ st.chunksSinceFinal + 1 then
    (if resetOk then
      { st with feedCount := st.feedCount + 1, chunksSinceFinal := 0,
                gen := st.gen + 1 }
     else
      { st with feedCount := st.feedCount + 1, chunksSinceFinal := 0,
                active := false },
     EmissionKind.forcedFinal)
  else
    ({ st with feedCount := st.feedCount + 1,
               chunksSinceFinal := st.chunksSinceFinal + 1 },
     EmissionKind.interim)

/-- A freshly constructed recognizer (NewRecognizer). -/
def initRecState : RecState :=
  { active := true, gen := 0, feedCount := 0, chunksSinceFinal := 0 }

/-- Run a sequence of feeds; each input is (naturalFinal, resetOk). -/
def runFeeds (st : RecState) (inputs : List (Bool × Bool)) : RecState :=
  inputs.foldl (fun s i => (feedAudio s i.1 i.2).1) st

/-- Parsed vosk JSON result: the partial and text fields (a missing field
unmarshals to the empty string). -/
structure VoskResult where
  partialText : String
  text : String
  deriving DecidableEq

/-- The transcript items of the signaling package. -/
structure Transcript where
  final : Bool
  langID : String
  message : String
  speakerSessionID : String
  deriving DecidableEq

/-- Recognizer.emitTranscript: none when the JSON did not parse; extract text
(final) or partial (non-final); drop the empty message and the single token
"the"; otherwise offer the transcript to the channel. The returned value is
the transcript offered to the channel send (the select drops it silently when
the channel is full, which cannot publish a different message). -/
def emitTranscript (parsed : Option VoskResult) (isFinal : Bool)
    (language sessionID : String) : Option Transcript :=
  match parsed with
  | none => none
  | some result =>
    let message := if isFinal then result.text else result.partialText
    if message = "" ∨ message = "the" then none
    else some { final := isFinal, langID := language, message := message,
                speakerSessionID := sessionID }

/-- A single feed keeps chunksSinceFinal below the forced-finalization bound. -/
theorem feedAudio_chunks_lt (st : RecState) (a b : Bool)
    (h : st.chunksSinceFinal < maxChunksBeforeForceFinalize) :
    ((feedAudio st a b).1).chunksSinceFinal < maxChunksBeforeForceFinalize := by
  unfold feedAudio
  unfold maxChunksBeforeForceFinalize at *
  split_ifs <;> simp <;> omega

/-- The inputs of the C1 counterexample run: 500 consecutive feeds in which
AcceptWaveform never reports a natural final (and recognizer recreation
succeeds). -/
def c1AllPartialInputs : List (Bool × Bool) := List.replicate 500 (false, true)

/-- Running feeds over an appended input list composes. -/
theorem runFeeds_append (st : RecState) (l1 l2 : List (Bool × Bool)) :
    runFeeds st (l1 ++ l2) = runFeeds (runFeeds st l1) l2 := by
  simp [runFeeds, List.foldl_append]

/-- Closed form of a fresh run of n ≤ 499 feeds without a natural final. -/
theorem runFeeds_replicate_le (n : Nat) (h : n ≤ 499) :
    runFeeds initRecState (List.replicate n (false, true)) =
      { active := true, gen := 0, feedCount := n, chunksSinceFinal := n } := by
  induction n with
  | zero => rfl
  | succ k ih =>
      have hk : k ≤ 499 := by omega
      have hlt : ¬ (maxChunksBeforeForceFinalize ≤ k + 1) := by
        unfold maxChunksBeforeForceFinalize
        omega
      rw [List.replicate_succ', runFeeds_append, ih hk]
      simp [runFeeds, feedAudio, hlt]

/-- C1 (counterexample). After 500 consecutive feeds without a natural final,
the next feed emits a partial result, not a forced final: the forced final
already fired on the 500th feed itself (the counter is back at 0 and the
handle was recreated once, gen = 1), so the claim that the feed after 500
such feeds must trigger a forced final and a reset is false. -/
theorem c1_next_feed_counterexample :
    (feedAudio (runFeeds initRecState c1AllPartialInputs) false true).2 =
      EmissionKind.interim ∧
    EmissionKind.interim ≠ EmissionKind.forcedFinal ∧
    (runFeeds initRecState c1AllPartialInputs).chunksSinceFinal = 0 ∧
    (runFeeds initRecState c1AllPartialInputs).gen = 1 := by
  have h500 : runFeeds initRecState c1AllPartialInputs =
      { active := true, gen := 1, feedCount := 500, chunksSinceFinal := 0 } := by
    have hrepl : c1AllPartialInputs =
        List.replicate 499 (false, true) ++ [(false, true)] := by
      rw [c1AllPartialInputs, ← List.replicate_succ']
    rw [hrepl, runFeeds_append, runFeeds_replicate_le 499 (by omega)]
    simp [runFeeds, feedAudio, maxChunksBeforeForceFinalize]
  rw [h500]
  refine ⟨?_, by decide, rfl, rfl⟩
  simp [feedAudio, maxChunksBeforeForceFinalize]

/-- C1 (amended). (i) In any run of FeedAudio from a fresh recognizer the
chunks-since-last-final counter stays below 500 between feeds; (ii) on the
feed that brings the count of consecutive feeds without a natural final to
500 (counter 499 before the feed), the recognizer emits a forced final, the
counter returns to zero, and the native handle is destroyed and recreated
(generation + 1) when recreation succeeds, or left nil when it fails. -/
theorem c1_forced_finalization :
    (∀ inputs : List (Bool × Bool),
        (runFeeds initRecState inputs).chunksSinceFinal <
          maxChunksBeforeForceFinalize) ∧
    (∀ st : RecState, ∀ ok : Bool, st.active = true →
        st.chunksSinceFinal + 1 = maxChunksBeforeForceFinalize →
        (feedAudio st false ok).2 = EmissionKind.forcedFinal ∧
        ((feedAudio st false ok).1).chunksSinceFinal = 0 ∧
        ((feedAudio st false ok).1).feedCount = st.feedCount + 1 ∧
        (ok = true → ((feedAudio st false ok).1).gen = st.gen + 1 ∧
            ((feedAudio st false ok).1).active = true) ∧
        (ok = false → ((feedAudio st false ok).1).active = false)) := by
  constructor
  · intro inputs
    suffices h : ∀ l : List (Bool × Bool), ∀ s : RecState,
        s.chunksSinceFinal < maxChunksBeforeForceFinalize →
        (runFeeds s l).chunksSinceFinal < maxChunksBeforeForceFinalize by
      exact h inputs initRecState (by simp [initRecState, maxChunksBeforeForceFinalize])
    intro l
    induction l with
    | nil => intro s hs; exact hs
    | cons i t ih =>
        intro s hs
        exact ih ((feedAudio s i.1 i.2).1) (feedAudio_chunks_lt s i.1 i.2 hs)
  · intro st ok hact hcnt
    have hge : maxChunksBeforeForceFinalize ≤ st.chunksSinceFinal + 1 := by omega
    cases ok <;> simp [feedAudio, hact, hge]

/-- Witness for c1_forced_finalization: the invariant at the empty run, and
the trigger at the concrete state with counter 499. -/
theorem c1_forced_finalization_witness :
    ((runFeeds initRecState []).chunksSinceFinal < maxChunksBeforeForceFinalize) ∧
    (feedAudio { active := true, gen := 0, feedCount := 0, chunksSinceFinal := 499 }
        false true).2 = EmissionKind.forcedFinal :=
  ⟨c1_forced_finalization.1 [],
   (c1_forced_finalization.2
      { active := true, gen := 0, feedCount := 0, chunksSinceFinal := 499 }
      true rfl (by decide)).1⟩

/-- A surviving branch of emitTranscript never carries a noise message. -/
theorem emit_msg_ok (msg language sessionID : String) (isFinal : Bool)
    (t : Transcript)
    (h : (if msg = "" ∨ msg = "the" then none
          else some { final := isFinal, langID := language, message := msg,
                      speakerSessionID := sessionID }) = some t) :
    t.message ≠ "" ∧ t.message ≠ "the" := by
  split at h
  · exact absurd h (by simp)
  · rename_i hm
    push_neg at hm
    injection h with h2
    subst h2
    exact ⟨hm.1, hm.2⟩

/-- C9. (i) Every transcript offered to the transcript channel by
emitTranscript has a message that is neither empty nor the single token
"the"; (ii) an emission whose extracted text is one of these two values is
dropped before the channel send. -/
theorem c9_noise_filter :
    (∀ parsed : Option VoskResult, ∀ isFinal : Bool, ∀ language sessionID : String,
        ∀ t : Transcript,
        emitTranscript parsed isFinal language sessionID = some t →
        t.message ≠ "" ∧ t.message ≠ "the") ∧
    (∀ r : VoskResult, ∀ isFinal : Bool, ∀ language sessionID : String,
        ((if isFinal then r.text else r.partialText) = "" ∨
            (if isFinal then r.text else r.partialText) = "the") →
        emitTranscript (some r) isFinal language sessionID = none) := by
  constructor
  · intro parsed isFinal language sessionID t h
    cases parsed with
    | none => exact absurd h (by simp [emitTranscript])
    | some r =>
        cases isFinal with
        | false => exact emit_msg_ok r.partialText language sessionID false t h
        | true => exact emit_msg_ok r.text language sessionID true t h
  · intro r isFinal language sessionID hm
    simp [emitTranscript, hm]

/-- Witness for c9_noise_filter at concrete inputs: a surviving message is
not noise, and a "the" final is dropped. -/
theorem c9_noise_filter_witness :
    (emitTranscript (some { partialText := "", text := "hello" }) true "en" "spk" =
        some { final := true, langID := "en", message := "hello",
               speakerSessionID := "spk" } ∧
      ("hello" : String) ≠ "" ∧ ("hello" : String) ≠ "the") ∧
    emitTranscript (some { partialText := "", text := "the" }) true "en" "spk" = none :=
  ⟨⟨by decide,
    c9_noise_filter.1 (some { partialText := "", text := "hello" }) true "en" "spk"
      { final := true, langID := "en", message := "hello", speakerSessionID := "spk" }
      (by decide)⟩,
   c9_noise_filter.2 { partialText := "", text := "the" } true "en" "spk" (by decide)⟩

/-! ### OCP translation poll schedule (internal/translation/ocp.go, pollTask)

Go computes waitTime := min(1<<i, 5) on a 64-bit int: the shift wraps in
two's complement, so 1<<63 is the most negative int64 and 1<<i is 0 for
i ≥ 64. time.Sleep returns immediately for a non-positive duration. -/

/-- Two's-complement wrap of an integer into the signed 64-bit range. -/
def int64Wrap (x : Int) : Int := (x + 2 ^ 63) % 2 ^ 64 - 2 ^ 63

/-- The Go expression 1 << i at type int (64-bit). -/
def goShiftOne (i : Nat) : Int := int64Wrap (2 ^ i)

/-- Seconds passed to time.Sleep before poll iteration i in pollTask:
min(1<<i, 5) for the first 180 polls, 10 afterwards. -/
def goPollWaitSeconds (i : Nat) : Int :=
  if i < 180 then min (goShiftOne i) 5 else 10

/-- The seconds pollTask actually sleeps: time.Sleep returns immediately on a
non-positive duration. -/
def goPollSleepSeconds (i : Nat) : Int := max 0 (goPollWaitSeconds i)

/-- Modelled from the claim's words (and the code's own comment): the wait
the specification states for poll iteration i, min(2^i, 5) seconds for the
first 180 polls and 10 s afterwards. -/
def specPollWaitSeconds (i : Nat) : Int :=
  if i < 180 then min ((2 : Int) ^ i) 5 else 10

/-- One poll response as pollTask reads it (transport errors and JSON parse
errors loop again and are subsumed by running). -/
inductive PollStatus where
  | successful (output : Option String)
  | failed
  | running
  deriving DecidableEq

/-- The value pollTask returns. -/
inductive PollOutcome where
  | ok (s : String)
  | errNoOutput
  | errFailed
  | errTimeout
  deriving DecidableEq

/-- The polling loop of pollTask from iteration i with the given fuel
(360 - i at the top level): STATUS_SUCCESSFUL returns the output value (an
absent output map or key is an error), STATUS_FAILED is an error, anything
else polls again; when the fuel runs out the task timed out. -/
def pollTaskAux (status : Nat → PollStatus) : Nat → Nat → PollOutcome
  | _, 0 => PollOutcome.errTimeout
  | i, fuel + 1 =>
    match status i with
    | PollStatus.successful (some s) => PollOutcome.ok s
    | PollStatus.successful none => PollOutcome.errNoOutput
    | PollStatus.failed => PollOutcome.errFailed
    | PollStatus.running => pollTaskAux status (i + 1) fuel

/-- OCPTranslator.pollTask: up to 360 polls. -/
def pollTask (status : Nat → PollStatus) : PollOutcome :=
  pollTaskAux status 0 360

/-- C3 (code evaluated at the failing inputs). The computed wait matches
min(2^i, 5) only for i < 63: at i = 63 the Go shift 1<<63 overflows to the
most negative int64 (the sleep is skipped), for 64 ≤ i < 180 it is 0, while
the claim (and the comment in pollTask) state 5 seconds there; the 10 s tail
and the 360-poll timeout behave as claimed. -/
theorem c3_poll_wait_overflow :
    ((List.range 63).all fun i =>
        decide (goPollWaitSeconds i = specPollWaitSeconds i)) = true ∧
    goPollWaitSeconds 63 = -(2 ^ 63) ∧
    specPollWaitSeconds 63 = 5 ∧
    goPollSleepSeconds 63 = 0 ∧
    goPollWaitSeconds 64 = 0 ∧
    goPollWaitSeconds 179 = 0 ∧
    specPollWaitSeconds 179 = 5 ∧
    goPollWaitSeconds 180 = 10 ∧
    goPollWaitSeconds 359 = 10 ∧
    pollTask (fun _ => PollStatus.running) = PollOutcome.errTimeout := by decide

/-! ### Audio downsampling (internal/vosk/recognizer.go, downsample48to16)

Samples are Go int16 values, modelled as Int in [-2^15, 2^15). The Go loop
computes an int32 sum of three consecutive samples (|sum| < 3·2^15, so the
int32 addition cannot overflow), divides by 3 with Go's truncated integer
division, and converts back to int16 (a wrap modulo 2^16). Out-of-range
indices never occur (i < len/3 gives i*3+2 < len); getD with default 0
stands for the in-bounds access samples[i*3+k]. -/

/-- Go int32 → int16 conversion: wrap into the signed 16-bit range. -/
def wrapInt16 (x : Int) : Int := (x + 2 ^ 15) % 2 ^ 16 - 2 ^ 15

/-- Go integer division by 3: truncation toward zero. -/
def goQuot3 (a : Int) : Int := if 0 ≤ a then a / 3 else -((-a) / 3)

/-- downsample48to16: out[i] = int16((int32(s[3i]) + int32(s[3i+1]) +
int32(s[3i+2])) / 3) for i < len(s)/3. -/
def downsample48to16 (samples : List Int) : List Int :=
  (List.range (samples.length / 3)).map fun i =>
    wrapInt16 (goQuot3 (samples.getD (i * 3) 0 + samples.getD (i * 3 + 1) 0 +
      samples.getD (i * 3 + 2) 0))

/-- getD stays in an interval that contains the list's elements and the
default. -/
theorem getD_bound (l : List Int) (lo hi d : Int) (i : Nat)
    (hl : ∀ x ∈ l, lo ≤ x ∧ x < hi) (hd : lo ≤ d ∧ d < hi) :
    lo ≤ l.getD i d ∧ l.getD i d < hi := by
  rw [List.getD]
  cases h : l.get? i with
  | none => simpa using hd
  | some x => simpa using hl x (List.get?_mem h)

/-- C8. For int16 input samples the output has length ⌊len/3⌋ and every
output sample is exactly the three-tap box average (s[3i] + s[3i+1] +
s[3i+2]) / 3, the division truncating toward zero; the quotient already fits
int16, so the 16-bit truncation changes nothing. -/
theorem c8_downsample_box_average :
    ∀ samples : List Int,
      (∀ x ∈ samples, -(2 ^ 15) ≤ x ∧ x < 2 ^ 15) →
      (downsample48to16 samples).length = samples.length / 3 ∧
      ∀ i, i < samples.length / 3 →
        (downsample48to16 samples).getD i 0 =
          goQuot3 (samples.getD (i * 3) 0 + samples.getD (i * 3 + 1) 0 +
            samples.getD (i * 3 + 2) 0) := by
  intro samples hbound
  refine ⟨by simp [downsample48to16], ?_⟩
  intro i hi
  have hd : -(2 : Int) ^ 15 ≤ 0 ∧ (0 : Int) < 2 ^ 15 := by norm_num
  have h0 := getD_bound samples _ _ 0 (i * 3) hbound hd
  have h1 := getD_bound samples _ _ 0 (i * 3 + 1) hbound hd
  have h2 := getD_bound samples _ _ 0 (i * 3 + 2) hbound hd
  have hmap : (downsample48to16 samples).getD i 0 =
      wrapInt16 (goQuot3 (samples.getD (i * 3) 0 + samples.getD (i * 3 + 1) 0 +
        samples.getD (i * 3 + 2) 0)) := by
    rw [downsample48to16, List.getD, List.get?_map, List.get?_range hi]
    rfl
  rw [hmap]
  set s := samples.getD (i * 3) 0 + samples.getD (i * 3 + 1) 0 +
      samples.getD (i * 3 + 2) 0 with hs
  have hq : -(2 : Int) ^ 15 ≤ goQuot3 s ∧ goQuot3 s < 2 ^ 15 := by
    unfold goQuot3
    split_ifs with hpos <;> [skip; skip] <;> omega
  unfold wrapInt16
  omega

/-- Concrete input for the C8 witness. -/
def c8Samples : List Int := [3, 4, 5, -7, -8, -9]

/-- Witness for c8_downsample_box_average: the bounds hypothesis holds for
c8Samples and the second output sample is (-7 - 8 - 9) / 3 = -8 (truncation
toward zero). -/
theorem c8_downsample_witness :
    (downsample48to16 c8Samples).getD 1 0 = -8 :=
  ((c8_downsample_box_average c8Samples (by decide)).2 1 (by decide)).trans
    (by decide)

/-! ### Translated sender (internal/translation/sender.go, sendTranslatedText)

The outgoing signaling envelopes the translated sender writes. The item
consumed from the translate-out channel carries TargetNcSessionIDs, the
Nextcloud (platform) session ids of the translation recipients, as
MetaTranslator.runTranslation snapshots them from the translator. -/

structure TranslateInputOutput where
  originLanguage : String
  targetLanguage : String
  message : String
  speakerSessionID : String
  targetNcSessionIDs : List String
  deriving DecidableEq

structure Recipient where
  type : String
  sessionID : String
  deriving DecidableEq

structure MessagePayload where
  type : String
  final : Option Bool
  langID : String
  message : String
  speakerSessionID : String
  deriving DecidableEq

structure DataMessage where
  recipient : Recipient
  data : MessagePayload
  deriving DecidableEq

structure SignalingMessage where
  type : String
  message : DataMessage
  deriving DecidableEq

/-- TranslatedSender.sendTranslatedText: one message per target Nextcloud
session id, sent with that platform id directly as the recipient session id
(SpreedClient.ResolveNcSessionID is never called). -/
def sendTranslatedText (seg : TranslateInputOutput) : List SignalingMessage :=
  seg.targetNcSessionIDs.map fun ncSid =>
    { type := "message",
      message :=
        { recipient := { type := "session", sessionID := ncSid },
          data :=
            { type := "transcript", final := some true,
              langID := seg.targetLanguage, message := seg.message,
              speakerSessionID := seg.speakerSessionID } } }

/-- The client's platform → transport session map in the C5 scenario: the
participant update mapped platform sid P2 to transport sid T2. -/
def c5NcSidMap : List (String × String) := [("P2", "T2")]

/-- The translate-out item of the C5 scenario, targeted at platform sid P2. -/
def c5Seg : TranslateInputOutput :=
  { originLanguage := "en", targetLanguage := "de", message := "guten morgen",
    speakerSessionID := "SPK", targetNcSessionIDs := ["P2"] }

/-- C5 (code evaluated at the failing input). The translated sender addresses
the message to the platform session id P2 itself, although the platform →
transport map resolves P2 to the transport sid T2: the claimed recipient
sessionId <transport sid> does not hold, while the rest of the claimed shape
(type "transcript", final always true, langId the target language) does. -/
theorem c5_recipient_is_platform_sid :
    sendTranslatedText c5Seg =
      [{ type := "message",
         message :=
           { recipient := { type := "session", sessionID := "P2" },
             data :=
               { type := "transcript", final := some true, langID := "de",
                 message := "guten morgen", speakerSessionID := "SPK" } } }] ∧
    alookup c5NcSidMap "P2" = some "T2" ∧
    ("P2" : String) ≠ "T2" := by decide

/-! ### Adaptive send timeout (internal/transcript/sender.go Run,
internal/translation/sender.go Run)

Timeouts are time.Duration values (int64 nanoseconds). Go computes
time.Duration(float64(timeout) * 1.5) and time.Duration(float64(timeout) /
1.5): on every value reachable from SendTimeout = 10^10 ns under these two
operations the float64 arithmetic is exact and the conversions truncate
nothing, so the integer expressions timeout * 3 / 2 and timeout * 2 / 3
coincide with the Go computation there. Both senders share the algorithm;
they differ only in the cap (MaxTranscriptSendTimeout 30 s vs
MaxTranslationSendTimeout 60 s) and both write the decrease as the maximum
of SendTimeout and timeout / 1.5. -/

/-- SendTimeout (10 s) in nanoseconds. -/
def sendTimeoutNs : Nat := 10000000000

/-- MaxTranscriptSendTimeout (30 s) in nanoseconds. -/
def maxTranscriptSendTimeoutNs : Nat := 30000000000

/-- MaxTranslationSendTimeout (60 s) in nanoseconds. -/
def maxTranslationSendTimeoutNs : Nat := 60000000000

structure SenderTimeoutState where
  timeout : Nat
  count : Nat
  deriving DecidableEq

/-- What one iteration of the sender loop observed: the dispatched send
finished within the timeout, or the timer fired first. -/
inductive SendEvent where
  | completed
  | timedOut
  deriving DecidableEq

/-- One iteration of the adaptive-timeout bookkeeping shared by
Sender.Run and TranslatedSender.Run, with the sender's cap as parameter. -/
def senderStep (maxTimeoutNs : Nat) (st : SenderTimeoutState) (ev : SendEvent) :
    SenderTimeoutState :=
  match ev with
  | SendEvent.completed =>
      let count := if 0 < st.count then st.count - 1 else st.count
      if count = 0 ∧ sendTimeoutNs < st.timeout then
        { timeout := max sendTimeoutNs (st.timeout * 2 / 3), count := count }
      else { st with count := count }
  | SendEvent.timedOut =>
      if st.timeout ≤ maxTimeoutNs then
        if 5 ≤ st.count + 1 then
          { timeout := st.timeout * 3 / 2, count := 0 }
        else { st with count := st.count + 1 }
      else st

/-- The sender loop from its initial state timeout = SendTimeout, counter 0. -/
def senderRun (maxTimeoutNs : Nat) (evs : List SendEvent) : SenderTimeoutState :=
  evs.foldl (senderStep maxTimeoutNs) { timeout := sendTimeoutNs, count := 0 }

/-- C6 (counterexample). Fifteen consecutive timed-out sends drive the
transcript sender's timeout to 33.75 s, exceeding MaxTranscriptSendTimeout =
30 s: the cap is compared before multiplying, so the timeout passes it once.
Moreover the third multiplication (events 11-15 here) can also be reached
with a successful send interleaved, so in general the factor is applied when
the counter reaches 5, not only after 5 consecutive timeouts. -/
theorem c6_cap_exceeded_counterexample :
    (senderRun maxTranscriptSendTimeoutNs
        (List.replicate 15 SendEvent.timedOut)).timeout = 33750000000 ∧
    ¬ (33750000000 ≤ maxTranscriptSendTimeoutNs) ∧
    (senderRun maxTranscriptSendTimeoutNs
        [SendEvent.timedOut, SendEvent.timedOut, SendEvent.timedOut,
         SendEvent.timedOut, SendEvent.completed, SendEvent.timedOut,
         SendEvent.timedOut]).timeout = 15000000000 := by decide

/-- The invariant of the adaptive timeout: at least SendTimeout and at most
3/2 of the cap. -/
def timeoutInv (maxTimeoutNs : Nat) (st : SenderTimeoutState) : Prop :=
  sendTimeoutNs ≤ st.timeout ∧ 2 * st.timeout ≤ 3 * maxTimeoutNs

/-- One step preserves the timeout invariant. -/
theorem senderStep_inv (maxTimeoutNs : Nat) (hmax : sendTimeoutNs ≤ maxTimeoutNs)
    (st : SenderTimeoutState) (ev : SendEvent) (h : timeoutInv maxTimeoutNs st) :
    timeoutInv maxTimeoutNs (senderStep maxTimeoutNs st ev) := by
  obtain ⟨h1, h2⟩ := h
  unfold sendTimeoutNs at *
  cases ev with
  | completed =>
      simp only [senderStep, timeoutInv, sendTimeoutNs]
      split_ifs <;> constructor <;> (try simp) <;> omega
  | timedOut =>
      simp only [senderStep, timeoutInv, sendTimeoutNs]
      split_ifs <;> constructor <;> (try simp) <;> omega

/-- C6 (amended). For either sender (cap 30 s or 60 s, or any cap of at
least SendTimeout) and any sequence of completed and timed-out sends, the
adaptive timeout never drops below SendTimeout (10 s) and never exceeds
3/2 of the cap: the factor 1.5 is applied only while the current timeout is
still at most the cap, so the timeout can pass the cap at most once (from
10 s it reaches at most 33.75 s under the 30 s cap and 75.9375 s under the
60 s cap) and never grows further. -/
theorem c6_adaptive_timeout_bounds :
    ∀ maxTimeoutNs : Nat, sendTimeoutNs ≤ maxTimeoutNs →
    ∀ evs : List SendEvent,
      sendTimeoutNs ≤ (senderRun maxTimeoutNs evs).timeout ∧
      2 * (senderRun maxTimeoutNs evs).timeout ≤ 3 * maxTimeoutNs := by
  intro maxTimeoutNs hmax evs
  suffices h : ∀ l : List SendEvent, ∀ st : SenderTimeoutState,
      timeoutInv maxTimeoutNs st →
      timeoutInv maxTimeoutNs (l.foldl (senderStep maxTimeoutNs) st) by
    exact h evs { timeout := sendTimeoutNs, count := 0 }
      ⟨by simp, by simp only []; unfold sendTimeoutNs at hmax ⊢; omega⟩
  intro l
  induction l with
  | nil => intro st hst; exact hst
  | cons e t ih =>
      intro st hst
      exact ih (senderStep maxTimeoutNs st e) (senderStep_inv maxTimeoutNs hmax st e hst)

/-- Witness for c6_adaptive_timeout_bounds at the transcript sender's cap and
a run of six timed-out sends. -/
theorem c6_adaptive_timeout_witness :
    sendTimeoutNs ≤ (senderRun maxTranscriptSendTimeoutNs
        (List.replicate 6 SendEvent.timedOut)).timeout ∧
    2 * (senderRun maxTranscriptSendTimeoutNs
        (List.replicate 6 SendEvent.timedOut)).timeout ≤
      3 * maxTranscriptSendTimeoutNs :=
  c6_adaptive_timeout_bounds maxTranscriptSendTimeoutNs (by decide)
    (List.replicate 6 SendEvent.timedOut)

/-! ### Association-list lemmas -/

theorem alookup_cons {β : Type} (k' : String) (v' : β) (t : List (String × β))
    (j : String) :
    alookup ((k', v') :: t) j = if k' = j then some v' else alookup t j := rfl

theorem alookup_ainsert {β : Type} (l : List (String × β)) (k : String) (v : β)
    (j : String) :
    alookup (ainsert l k v) j = if k = j then some v else alookup l j := by
  induction l with
  | nil => simp [ainsert, alookup]
  | cons p t ih =>
      obtain ⟨k', v'⟩ := p
      by_cases h : k' = k
      · subst h
        by_cases hj : k' = j <;> simp [ainsert, alookup_cons, hj]
      · by_cases hj : k' = j
        · subst hj
          have hk : ¬ k = k' := fun he => h he.symm
          simp [ainsert, h, alookup_cons, hk]
        · simp [ainsert, h, alookup_cons, hj, ih]

theorem alookup_aerase {β : Type} (l : List (String × β)) (k : String)
    (j : String) :
    alookup (aerase l k) j = if k = j then none else alookup l j := by
  induction l with
  | nil => simp [aerase, alookup]
  | cons p t ih =>
      obtain ⟨k', v'⟩ := p
      by_cases h : k' = k
      · subst h
        by_cases hj : k' = j
        · subst hj
          simp [aerase, ih]
        · have hk : ¬ k' = j := hj
          simp [aerase, ih, alookup_cons, hk]
      · by_cases hj : k' = j
        · subst hj
          have hk : ¬ k = k' := fun he => h he.symm
          simp [aerase, h, alookup_cons, hk]
        · simp [aerase, h, alookup_cons, hj, ih]

theorem alookup_append {β : Type} (l1 l2 : List (String × β)) (j : String) :
    alookup (l1 ++ l2) j =
      match alookup l1 j with
      | some v => some v
      | none => alookup l2 j := by
  induction l1 with
  | nil => simp [alookup]
  | cons p t ih =>
      obtain ⟨k', v'⟩ := p
      by_cases hj : k' = j <;> simp [alookup_cons, hj, ih]

theorem alookup_mem {β : Type} (l : List (String × β)) (k : String) (v : β)
    (h : alookup l k = some v) : (k, v) ∈ l := by
  induction l with
  | nil => simp [alookup] at h
  | cons p t ih =>
      obtain ⟨k', v'⟩ := p
      by_cases hk : k' = k
      · subst hk
        simp [alookup_cons] at h
        simp [h]
      · simp [alookup_cons, hk] at h
        simp [ih h]

theorem mem_ainsert {β : Type} (l : List (String × β)) (k : String) (v : β)
    (p : String × β) (h : p ∈ ainsert l k v) : p = (k, v) ∨ p ∈ l := by
  induction l with
  | nil => simpa [ainsert] using h
  | cons q t ih =>
      obtain ⟨k', v'⟩ := q
      by_cases hk : k' = k
      · subst hk
        simp [ainsert] at h
        rcases h with h | h
        · exact Or.inl (by simp [h])
        · exact Or.inr (by simp [h])
      · simp [ainsert, hk] at h
        rcases h with h | h
        · exact Or.inr (by simp [h])
        · rcases ih h with h2 | h2
          · exact Or.inl h2
          · exact Or.inr (by simp [h2])

theorem mem_aerase {β : Type} (l : List (String × β)) (k : String)
    (p : String × β) (h : p ∈ aerase l k) : p ∈ l := by
  induction l with
  | nil => simpa [aerase] using h
  | cons q t ih =>
      obtain ⟨k', v'⟩ := q
      by_cases hk : k' = k
      · simp [aerase, hk] at h
        simp [ih h]
      · simp [aerase, hk] at h
        rcases h with h | h
        · simp [h]
        · simp [ih h]

theorem eq_nil_of_alookup_none {β : Type} (l : List (String × β))
    (h : ∀ j, alookup l j = none) : l = [] := by
  cases l with
  | nil => rfl
  | cons p t =>
      obtain ⟨k', v'⟩ := p
      have := h k'
      simp [alookup_cons] at this

/-! ### Model registry (internal/vosk/model.go)

The registry is the map language → {handle, refCount}; only the refCount
matters here, the handle being shared opaquely. loadable lang abstracts the
availability checks and the loader of the GetModel miss path (known language,
directory present, vosk.NewModel succeeds). -/

inductive RegOp where
  | acquire (lang : String)
  | release (lang : String)
  deriving DecidableEq

/-- ModelManager.GetModel: increment the refcount of a cached entry, else
load and insert with refcount 1; the Bool is success. -/
def getModel (loadable : String → Bool) (st : List (String × Nat))
    (lang : String) : List (String × Nat) × Bool :=
  match alookup st lang with
  | some n => (ainsert st lang (n + 1), true)
  | none => if loadable lang then (st ++ [(lang, 1)], true) else (st, false)

/-- ModelManager.ReleaseModel: a miss is a no-op; otherwise decrement, and
at refcount ≤ 0 free the handle and remove the entry; the Bool reports that
the handle was freed. -/
def releaseModel (st : List (String × Nat)) (lang : String) :
    List (String × Nat) × Bool :=
  match alookup st lang with
  | none => (st, false)
  | some n => if n ≤ 1 then (aerase st lang, true) else (ainsert st lang (n - 1), false)

/-- One registry operation applied to the registry state. -/
def regStep (loadable : String → Bool) (st : List (String × Nat)) :
    RegOp → List (String × Nat)
  | RegOp.acquire l => (getModel loadable st l).1
  | RegOp.release l => (releaseModel st l).1

/-- A sequence of operations from the empty registry. -/
def regRun (loadable : String → Bool) (ops : List RegOp) : List (String × Nat) :=
  ops.foldl (regStep loadable) []

/-- Matched sequences: scanning left to right with one pending-acquire
counter per language, every release matches a pending acquire of its
language and no acquire is left pending at the end. -/
def matchedAux : List (String × Nat) → List RegOp → Bool
  | acc, [] => acc.all fun p => p.2 = 0
  | acc, RegOp.acquire l :: t =>
      matchedAux (ainsert acc l ((alookup acc l).getD 0 + 1)) t
  | acc, RegOp.release l :: t =>
      match alookup acc l with
      | some (n + 1) => matchedAux (ainsert acc l n) t
      | _ => false

def matched (ops : List RegOp) : Bool := matchedAux [] ops

/-- The operations of one language, as a list of flags (true = acquire). -/
def langOps (lang : String) : List RegOp → List Bool
  | [] => []
  | RegOp.acquire l :: t =>
      if l = lang then true :: langOps lang t else langOps lang t
  | RegOp.release l :: t =>
      if l = lang then false :: langOps lang t else langOps lang t

/-- The Dyck check on one language's flags with n acquires already pending. -/
def balancedFrom (n : Nat) : List Bool → Bool
  | [] => decide (n = 0)
  | true :: t => balancedFrom (n + 1) t
  | false :: t => if n = 0 then false else balancedFrom (n - 1) t

/-- The per-language refcount semantics of the registry (0 = entry absent);
a release at 0 is a no-op. -/
def natFoldLang (n : Nat) : List Bool → Nat
  | [] => n
  | true :: t => natFoldLang (n + 1) t
  | false :: t => natFoldLang (n - 1) t

/-- The per-language view of a registry state. -/
def natToOpt (n : Nat) : Option Nat := if n = 0 then none else some n

/-- One registry operation, seen through the refcount of a fixed language. -/
def langStep (loadable : String → Bool) (lang : String) (s : Option Nat) :
    RegOp → Option Nat
  | RegOp.acquire l =>
      if l = lang then
        match s with
        | some n => some (n + 1)
        | none => if loadable lang then some 1 else none
      else s
  | RegOp.release l =>
      if l = lang then
        match s with
        | none => none
        | some n => if n ≤ 1 then none else some (n - 1)
      else s

/-- Projection: one registry step commutes with the per-language view. -/
theorem alookup_regStep (loadable : String → Bool) (st : List (String × Nat))
    (op : RegOp) (lang : String) :
    alookup (regStep loadable st op) lang =
      langStep loadable lang (alookup st lang) op := by
  cases op with
  | acquire l =>
      by_cases hl : l = lang
      · subst hl
        simp only [regStep, getModel, langStep, if_pos rfl]
        cases h : alookup st l with
        | some n => simp [h, alookup_ainsert]
        | none =>
            by_cases hld : loadable l
            · simp [h, hld, alookup_append, alookup_cons, alookup]
            · simp [h, hld]
      · simp only [regStep, getModel, langStep, if_neg hl]
        cases h : alookup st l with
        | some n => simp [alookup_ainsert, hl]
        | none =>
            by_cases hld : loadable l
            · simp only [hld, if_true, alookup_append, alookup_cons, if_neg hl]
              cases alookup st lang <;> simp [alookup]
            · simp [hld]
  | release l =>
      by_cases hl : l = lang
      · subst hl
        simp only [regStep, releaseModel, langStep, if_pos rfl]
        cases h : alookup st l with
        | some n =>
            by_cases hn : n ≤ 1
            · simp [h, hn, alookup_aerase]
            · simp [h, hn, alookup_ainsert]
        | none => simp [h]
      · simp only [regStep, releaseModel, langStep, if_neg hl]
        cases h : alookup st l with
        | some n =>
            by_cases hn : n ≤ 1
            · simp [h, hn, alookup_aerase, hl]
            · simp [h, hn, alookup_ainsert, hl]
        | none => simp [h]

/-- Projection of a whole run onto one language. -/
theorem alookup_regRun_fold (loadable : String → Bool) (lang : String) :
    ∀ ops : List RegOp, ∀ st : List (String × Nat),
      alookup (ops.foldl (regStep loadable) st) lang =
        ops.foldl (langStep loadable lang) (alookup st lang) := by
  intro ops
  induction ops with
  | nil => intro st; rfl
  | cons op t ih =>
      intro st
      simp only [List.foldl_cons]
      rw [ih, alookup_regStep]

/-- An unloadable language never gets an entry. -/
theorem langStep_fold_none (loadable : String → Bool) (lang : String)
    (hld : loadable lang = false) :
    ∀ bs : List RegOp,
      bs.foldl (langStep loadable lang) none = none := by
  intro bs
  induction bs with
  | nil => rfl
  | cons op t ih =>
      cases op with
      | acquire l =>
          by_cases hl : l = lang <;>
            simp only [List.foldl_cons, langStep, hl, if_pos, if_neg, hld] <;>
            simpa [langStep, hl, hld] using ih
      | release l =>
          by_cases hl : l = lang <;>
            simpa [langStep, hl] using ih

/-- For a loadable language, the per-language fold is the pending-acquire
count of the language's operations. -/
theorem langStep_fold_eq_natFold (loadable : String → Bool) (lang : String)
    (hld : loadable lang = true) :
    ∀ ops : List RegOp, ∀ m : Nat,
      ops.foldl (langStep loadable lang) (natToOpt m) =
        natToOpt (natFoldLang m (langOps lang ops)) := by
  intro ops
  induction ops with
  | nil => intro m; rfl
  | cons op t ih =>
      intro m
      cases op with
      | acquire l =>
          by_cases hl : l = lang
          · subst hl
            have hstep : langStep loadable l (natToOpt m) (RegOp.acquire l) =
                natToOpt (m + 1) := by
              cases m with
              | zero => simp [langStep, natToOpt, hld]
              | succ k => simp [langStep, natToOpt]
            simp only [List.foldl_cons, hstep, langOps, if_pos rfl, natFoldLang]
            exact ih (m + 1)
          · simp only [List.foldl_cons, langStep, if_neg hl, langOps]
            exact ih m
      | release l =>
          by_cases hl : l = lang
          · subst hl
            have hstep : langStep loadable l (natToOpt m) (RegOp.release l) =
                natToOpt (m - 1) := by
              match m with
              | 0 => simp [langStep, natToOpt]
              | 1 => simp [langStep, natToOpt]
              | (k + 2) =>
                  have h1 : ¬ (k + 2 ≤ 1) := by omega
                  have h2 : ¬ (k + 2 = 0) := by omega
                  have h3 : ¬ (k + 1 = 0) := by omega
                  simp [langStep, natToOpt, h1, h2, h3]
            simp only [List.foldl_cons, hstep, langOps, if_pos rfl, natFoldLang]
            exact ih (m - 1)
          · simp only [List.foldl_cons, langStep, if_neg hl, langOps]
            exact ih m

/-- A balanced flag list drives the pending count to zero. -/
theorem natFoldLang_of_balanced :
    ∀ bs : List Bool, ∀ n : Nat, balancedFrom n bs = true →
      natFoldLang n bs = 0 := by
  intro bs
  induction bs with
  | nil =>
      intro n h
      simpa [balancedFrom, natFoldLang] using h
  | cons b t ih =>
      intro n h
      cases b with
      | true => exact ih (n + 1) (by simpa [balancedFrom] using h)
      | false =>
          have hn : ¬ n = 0 := by
            intro h0
            simp [balancedFrom, h0] at h
          exact ih (n - 1) (by simpa [balancedFrom, hn] using h)

/-- A matched operation sequence is balanced for every language, counting
from the scanner's accumulator. -/
theorem matchedAux_balanced :
    ∀ ops : List RegOp, ∀ acc : List (String × Nat),
      matchedAux acc ops = true →
      ∀ lang : String,
        balancedFrom ((alookup acc lang).getD 0) (langOps lang ops) = true := by
  intro ops
  induction ops with
  | nil =>
      intro acc h lang
      simp only [matchedAux, List.all_eq_true] at h
      cases hx : alookup acc lang with
      | none => simp [langOps, balancedFrom]
      | some n =>
          have := h (lang, n) (alookup_mem acc lang n hx)
          simp at this
          simp [langOps, balancedFrom, hx, this]
  | cons op t ih =>
      intro acc h lang
      cases op with
      | acquire l =>
          simp only [matchedAux] at h
          have hrec := ih (ainsert acc l ((alookup acc l).getD 0 + 1)) h lang
          by_cases hl : l = lang
          · subst hl
            rw [alookup_ainsert] at hrec
            simp at hrec
            simp [langOps, balancedFrom, hrec]
          · rw [alookup_ainsert, if_neg hl] at hrec
            simpa [langOps, hl] using hrec
      | release l =>
          simp only [matchedAux] at h
          cases hx : alookup acc l with
          | none => rw [hx] at h; simp at h
          | some n =>
              cases n with
              | zero => rw [hx] at h; simp at h
              | succ k =>
                  rw [hx] at h
                  have hrec := ih (ainsert acc l k) h lang
                  by_cases hl : l = lang
                  · subst hl
                    rw [alookup_ainsert] at hrec
                    simp at hrec
                    simp [langOps, balancedFrom, hx, hrec]
                  · rw [alookup_ainsert, if_neg hl] at hrec
                    simpa [langOps, hl] using hrec

/-- One registry step keeps every stored refcount at least 1. -/
theorem regStep_refcount_pos (loadable : String → Bool)
    (st : List (String × Nat)) (op : RegOp) (h : ∀ p ∈ st, 1 ≤ p.2) :
    ∀ p ∈ regStep loadable st op, 1 ≤ p.2 := by
  cases op with
  | acquire l =>
      simp only [regStep, getModel]
      cases hx : alookup st l with
      | some n =>
          intro p hp
          rcases mem_ainsert st l (n + 1) p hp with hp2 | hp2
          · subst hp2; simp
          · exact h p hp2
      | none =>
          by_cases hld : loadable l
          · simp only [hld, if_true]
            intro p hp
            rcases List.mem_append.mp hp with hp2 | hp2
            · exact h p hp2
            · simp at hp2; subst hp2; simp
          · simp only [hld, if_false]
            exact h
  | release l =>
      simp only [regStep, releaseModel]
      cases hx : alookup st l with
      | none => exact h
      | some n =>
          by_cases hn : n ≤ 1
          · simp only [hn, if_true]
            intro p hp
            exact h p (mem_aerase st l p hp)
          · simp only [hn, if_false]
            intro p hp
            rcases mem_ainsert st l (n - 1) p hp with hp2 | hp2
            · subst hp2; simp; omega
            · exact h p hp2

/-- Every refcount in any run of the registry is at least 1. -/
theorem regRun_refcount_pos (loadable : String → Bool) (ops : List RegOp) :
    ∀ p ∈ regRun loadable ops, 1 ≤ p.2 := by
  suffices hg : ∀ l : List RegOp, ∀ st : List (String × Nat),
      (∀ p ∈ st, 1 ≤ p.2) → ∀ p ∈ l.foldl (regStep loadable) st, 1 ≤ p.2 by
    exact hg ops [] (by simp)
  intro l
  induction l with
  | nil => intro st h; exact h
  | cons op t ih =>
      intro st h
      exact ih (regStep loadable st op) (regStep_refcount_pos loadable st op h)

/-- C7. (i) Balance: for any matched sequence of acquire/release calls the
registry is empty at the end; (ii) while an entry is present its refCount is
at least 1; (iii) a release frees the handle exactly when the refCount is
about to reach zero (it was 1), and in that same step the entry is removed,
so the handle is freed and the entry removed exactly once. -/
theorem c7_model_refcount_balance :
    (∀ loadable : String → Bool, ∀ ops : List RegOp,
        matched ops = true → regRun loadable ops = []) ∧
    (∀ loadable : String → Bool, ∀ ops : List RegOp,
        ∀ p ∈ regRun loadable ops, 1 ≤ p.2) ∧
    (∀ st : List (String × Nat), ∀ lang : String, (∀ p ∈ st, 1 ≤ p.2) →
        (((releaseModel st lang).2 = true) ↔ alookup st lang = some 1) ∧
        ((releaseModel st lang).2 = true →
          alookup (releaseModel st lang).1 lang = none)) := by
  refine ⟨?_, regRun_refcount_pos, ?_⟩
  · intro loadable ops hm
    apply eq_nil_of_alookup_none
    intro lang
    rw [regRun, alookup_regRun_fold]
    show ops.foldl (langStep loadable lang) none = none
    cases hld : loadable lang with
    | false => exact langStep_fold_none loadable lang hld ops
    | true =>
        have h0 : (none : Option Nat) = natToOpt 0 := rfl
        rw [h0, langStep_fold_eq_natFold loadable lang hld ops 0]
        have hb := matchedAux_balanced ops [] hm lang
        simp only [alookup, Option.getD_none] at hb
        rw [natFoldLang_of_balanced (langOps lang ops) 0 hb]
  · intro st lang hinv
    cases hx : alookup st lang with
    | none => simp [releaseModel, hx]
    | some n =>
        have hn1 : 1 ≤ n := hinv (lang, n) (alookup_mem st lang n hx)
        by_cases hn : n ≤ 1
        · have : n = 1 := by omega
          subst this
          simp [releaseModel, hx, alookup_aerase]
        · have : ¬ n = 1 := by omega
          simp [releaseModel, hx, hn, this]

/-- Witness for c7_model_refcount_balance: a matched two-acquire run empties
the registry; a run holding one entry has refcount ≥ 1; releasing an entry
with refcount 1 frees it and removes it. -/
theorem c7_model_refcount_witness :
    regRun (fun _ => true)
      [RegOp.acquire "en", RegOp.acquire "en", RegOp.release "en",
       RegOp.release "en"] = [] ∧
    1 ≤ (("en", 2) : String × Nat).2 ∧
    (((releaseModel [("en", 1)] "en").2 = true) ↔
      alookup [("en", 1)] "en" = some 1) ∧
    alookup (releaseModel [("en", 1)] "en").1 "en" = none :=
  ⟨c7_model_refcount_balance.1 (fun _ => true)
      [RegOp.acquire "en", RegOp.acquire "en", RegOp.release "en",
       RegOp.release "en"] (by decide),
   c7_model_refcount_balance.2.1 (fun _ => true)
      [RegOp.acquire "en", RegOp.acquire "en"] ("en", 2) (by decide),
   (c7_model_refcount_balance.2.2 [("en", 1)] "en" (by decide)).1,
   (c7_model_refcount_balance.2.2 [("en", 1)] "en" (by decide)).2 (by decide)⟩

/-! ### More set and map lemmas, for the signaling client -/

theorem mem_insertSet (l : List String) (y x : String) :
    x ∈ insertSet l y ↔ x ∈ l ∨ x = y := by
  unfold insertSet
  by_cases h : y ∈ l
  · simp only [if_pos h]
    constructor
    · exact Or.inl
    · rintro (hx | rfl) <;> [exact hx; exact h]
  · simp [if_neg h]

theorem eraseStr_eq_filter (l : List String) (y : String) :
    eraseStr l y = l.filter fun z => z ≠ y := by
  induction l with
  | nil => rfl
  | cons z t ih =>
      by_cases h : z = y
      · subst h
        simp [eraseStr, ih]
      · simp [eraseStr, h, ih, List.filter_cons]

theorem mem_eraseStr (l : List String) (y x : String) :
    x ∈ eraseStr l y ↔ x ∈ l ∧ x ≠ y := by
  rw [eraseStr_eq_filter]
  simp [List.mem_filter]

theorem mem_avalues_iff {β : Type} (l : List (String × β)) (v : β) :
    v ∈ avalues l ↔ ∃ k, (k, v) ∈ l := by
  unfold avalues
  simp only [List.mem_map]
  constructor
  · rintro ⟨⟨k, w⟩, hm, rfl⟩; exact ⟨k, hm⟩
  · rintro ⟨k, hm⟩; exact ⟨(k, v), hm, rfl⟩

theorem alookup_ne_none_of_mem {β : Type} (l : List (String × β)) (k : String)
    (v : β) (h : (k, v) ∈ l) : alookup l k ≠ none := by
  induction l with
  | nil => simp at h
  | cons p t ih =>
      obtain ⟨k', v'⟩ := p
      by_cases hk : k' = k
      · simp [alookup_cons, hk]
      · simp only [List.mem_cons] at h
        rcases h with h | h
        · exact absurd (congrArg Prod.fst h).symm hk
        · simpa [alookup_cons, hk] using ih h

theorem alookup_eq_of_mem_nodup {β : Type} (l : List (String × β)) (k : String)
    (v : β) (hnd : (akeys l).Nodup) (h : (k, v) ∈ l) : alookup l k = some v := by
  induction l with
  | nil => simp at h
  | cons p t ih =>
      obtain ⟨k', v'⟩ := p
      simp only [akeys, List.map_cons, List.nodup_cons] at hnd
      simp only [List.mem_cons] at h
      rcases h with h | h
      · injection h with h1 h2
        subst h1
        subst h2
        simp [alookup_cons]
      · have hk : ¬ k' = k := by
          intro he
          subst he
          exact hnd.1 (List.mem_map_of_mem Prod.fst h)
        simpa [alookup_cons, hk] using ih hnd.2 h

theorem mem_aerase_of_ne {β : Type} (l : List (String × β)) (k : String)
    (p : String × β) (hm : p ∈ l) (hne : p.1 ≠ k) : p ∈ aerase l k := by
  induction l with
  | nil => simp at hm
  | cons q t ih =>
      obtain ⟨k', v'⟩ := q
      simp only [List.mem_cons] at hm
      by_cases hk : k' = k
      · subst hk
        rcases hm with hm | hm
        · exact absurd (congrArg Prod.fst hm) (by simpa using hne)
        · simpa [aerase] using ih hm
      · rcases hm with hm | hm
        · simp [aerase, hk, hm]
        · simp [aerase, hk, ih hm]

theorem ainsert_self {β : Type} (l : List (String × β)) (k : String) (v : β)
    (h : alookup l k = some v) : ainsert l k v = l := by
  induction l with
  | nil => simp [alookup] at h
  | cons p t ih =>
      obtain ⟨k', v'⟩ := p
      by_cases hk : k' = k
      · subst hk
        simp [alookup_cons] at h
        simp [ainsert, h]
      · simp only [alookup_cons, if_neg hk] at h
        simp [ainsert, hk, ih h]

theorem ainsert_append {β : Type} (l : List (String × β)) (k : String) (v : β)
    (h : alookup l k = none) : ainsert l k v = l ++ [(k, v)] := by
  induction l with
  | nil => simp [ainsert]
  | cons p t ih =>
      obtain ⟨k', v'⟩ := p
      by_cases hk : k' = k
      · simp [alookup_cons, hk] at h
      · simp only [alookup_cons, if_neg hk] at h
        simp [ainsert, hk, ih h]

theorem not_mem_keys_of_none {β : Type} (l : List (String × β)) (k : String)
    (h : alookup l k = none) : k ∉ akeys l := by
  intro hm
  simp only [akeys, List.mem_map] at hm
  obtain ⟨⟨k', v'⟩, hm, he⟩ := hm
  simp only at he
  subst he
  exact alookup_ne_none_of_mem l k' v' hm h

theorem nodup_akeys_ainsert {β : Type} (l : List (String × β)) (k : String)
    (v : β) (h : (akeys l).Nodup) : (akeys (ainsert l k v)).Nodup := by
  induction l with
  | nil => simp [ainsert, akeys]
  | cons p t ih =>
      obtain ⟨k', v'⟩ := p
      simp only [akeys, List.map_cons, List.nodup_cons] at h
      by_cases hk : k' = k
      · subst hk
        have he : ainsert ((k', v') :: t) k' v = (k', v) :: t := by
          simp [ainsert]
        rw [he]
        simp only [akeys, List.map_cons, List.nodup_cons]
        exact ⟨h.1, h.2⟩
      · simp only [ainsert, if_neg hk, akeys, List.map_cons, List.nodup_cons]
        refine ⟨?_, ih h.2⟩
        intro hmem
        have halt : k' ∈ List.map Prod.fst t ∨ k' = k := by
          simp only [List.mem_map] at hmem ⊢
          obtain ⟨q, hq, he⟩ := hmem
          rcases mem_ainsert t k v q hq with rfl | hq2
          · exact Or.inr he.symm
          · exact Or.inl ⟨q, hq2, he⟩
        rcases halt with h2 | h2
        · exact h.1 h2
        · exact hk h2

theorem nodup_akeys_aerase {β : Type} (l : List (String × β)) (k : String)
    (h : (akeys l).Nodup) : (akeys (aerase l k)).Nodup := by
  induction l with
  | nil => simp [aerase, akeys]
  | cons p t ih =>
      obtain ⟨k', v'⟩ := p
      simp only [akeys, List.map_cons, List.nodup_cons] at h
      by_cases hk : k' = k
      · simp only [aerase, if_pos hk]
        exact ih h.2
      · simp only [aerase, if_neg hk, akeys, List.map_cons, List.nodup_cons]
        refine ⟨?_, ih h.2⟩
        intro hmem
        simp only [akeys, List.mem_map] at hmem
        obtain ⟨q, hq, he⟩ := hmem
        have hq2 := mem_aerase t k q hq
        exact h.1 (by simpa [akeys, he] using List.mem_map_of_mem Prod.fst hq2)

/-! ### Signaling client target set (internal/signaling/client.go)

The state the target-set operations manipulate: the target set (HPB session
ids), the platform → transport map ncSidMap, the pending-target stash, and
whether the deferred-close timer is armed. Operations are AddTarget,
RemoveTarget and one UserUpdateEntry of a participants/update event (an
event applies its entries in order); the branches of handleEvent that touch
peer connections, requestoffer or closing do not touch these fields. -/

structure UserUpdateEntry where
  sessionID : String
  ncSessionID : String
  inCall : Nat
  internal : Bool
  deriving DecidableEq

inductive SigOp where
  | addTarget (ncSessionID : String)
  | removeTarget (ncSessionID : String)
  | userUpdate (u : UserUpdateEntry)
  deriving DecidableEq

structure SigState where
  targets : List String
  ncSidMap : List (String × String)
  ncSidWaitStash : List String
  deferredCloseTimer : Bool
  deriving DecidableEq

/-- CallFlagDisconnected of the signaling constants. -/
def callFlagDisconnected : Nat := 0

/-- The state of a fresh SpreedClient. -/
def sigInit : SigState :=
  { targets := [], ncSidMap := [], ncSidWaitStash := [],
    deferredCloseTimer := false }

/-- AddTarget, RemoveTarget and the per-user branch of handleEvent.
AddTarget first cancels any deferred-close timer; an unmapped platform sid
is stashed. RemoveTarget drops the stash entry, then the target when mapped,
arming the timer when the target set empties. A user update is skipped for
internal sessions; a disconnected user is removed from the target set by
transport sid (arming the timer on empty) and the mapping of their platform
sid is deleted; otherwise the mapping is stored and a stashed platform sid
is committed into the target set. -/
def sigStep (st : SigState) : SigOp → SigState
  | SigOp.addTarget nc =>
      match alookup st.ncSidMap nc with
      | none =>
          { targets := st.targets, ncSidMap := st.ncSidMap,
            ncSidWaitStash := insertSet st.ncSidWaitStash nc,
            deferredCloseTimer := false }
      | some hpb =>
          { targets := insertSet st.targets hpb, ncSidMap := st.ncSidMap,
            ncSidWaitStash := eraseStr st.ncSidWaitStash nc,
            deferredCloseTimer := false }
  | SigOp.removeTarget nc =>
      match alookup st.ncSidMap nc with
      | none => { st with ncSidWaitStash := eraseStr st.ncSidWaitStash nc }
      | some hpb =>
          { targets := eraseStr st.targets hpb, ncSidMap := st.ncSidMap,
            ncSidWaitStash := eraseStr st.ncSidWaitStash nc,
            deferredCloseTimer :=
              if eraseStr st.targets hpb = [] then true
              else st.deferredCloseTimer }
  | SigOp.userUpdate u =>
      if u.internal then st
      else if u.inCall = callFlagDisconnected then
        { targets := eraseStr st.targets u.sessionID,
          ncSidMap := if u.ncSessionID = "" then st.ncSidMap
                      else aerase st.ncSidMap u.ncSessionID,
          ncSidWaitStash := st.ncSidWaitStash,
          deferredCloseTimer :=
            if eraseStr st.targets u.sessionID = [] then true
            else st.deferredCloseTimer }
      else if u.ncSessionID = "" then st
      else if u.ncSessionID ∈ st.ncSidWaitStash then
        { targets := insertSet st.targets u.sessionID,
          ncSidMap := ainsert st.ncSidMap u.ncSessionID u.sessionID,
          ncSidWaitStash := eraseStr st.ncSidWaitStash u.ncSessionID,
          deferredCloseTimer := st.deferredCloseTimer }
      else
        { st with ncSidMap := ainsert st.ncSidMap u.ncSessionID u.sessionID }

def sigRun (st : SigState) (ops : List SigOp) : SigState :=
  ops.foldl sigStep st

/-- A participants-update entry is consistent with the current state when it
does not remap a platform sid that is already mapped to a different
transport sid (add/remove operations are always consistent). -/
def updateConsistent (st : SigState) : SigOp → Bool
  | SigOp.userUpdate u =>
      u.internal ||
      u.ncSessionID == "" ||
      (match alookup st.ncSidMap u.ncSessionID with
       | none => true
       | some hpb => hpb == u.sessionID)
  | _ => true

/-- Every operation of the sequence is consistent with the state it is
applied to. -/
def consistentFrom : SigState → List SigOp → Bool
  | _, [] => true
  | st, op :: rest => updateConsistent st op && consistentFrom (sigStep st op) rest

/-- The C2 invariant together with the bookkeeping fact that makes it
inductive: the map's keys are distinct. -/
def sigInv (st : SigState) : Prop :=
  (∀ t ∈ st.targets, t ∈ avalues st.ncSidMap) ∧ (akeys st.ncSidMap).Nodup

/-- One consistent operation preserves the C2 invariant. -/
theorem sigStep_inv (st : SigState) (op : SigOp)
    (hc : updateConsistent st op = true) (h : sigInv st) :
    sigInv (sigStep st op) := by
  obtain ⟨hsub, hnd⟩ := h
  cases op with
  | addTarget nc =>
      cases hx : alookup st.ncSidMap nc with
      | none =>
          exact ⟨by simpa [sigStep, hx] using hsub,
                 by simpa [sigStep, hx] using hnd⟩
      | some hpb =>
          refine ⟨?_, by simpa [sigStep, hx] using hnd⟩
          intro t ht
          simp only [sigStep, hx] at ht ⊢
          rcases (mem_insertSet st.targets hpb t).mp ht with ht2 | rfl
          · exact hsub t ht2
          · exact (mem_avalues_iff st.ncSidMap t).mpr ⟨nc, alookup_mem _ _ _ hx⟩
  | removeTarget nc =>
      cases hx : alookup st.ncSidMap nc with
      | none =>
          exact ⟨by simpa [sigStep, hx] using hsub,
                 by simpa [sigStep, hx] using hnd⟩
      | some hpb =>
          refine ⟨?_, by simpa [sigStep, hx] using hnd⟩
          intro t ht
          simp only [sigStep, hx] at ht ⊢
          exact hsub t ((mem_eraseStr _ _ _).mp ht).1
  | userUpdate u =>
      by_cases hint : u.internal = true
      · exact ⟨by simpa [sigStep, hint] using hsub,
               by simpa [sigStep, hint] using hnd⟩
      · have hintf : u.internal = false := by
          cases hb : u.internal
          · rfl
          · exact absurd hb hint
        by_cases hdisc : u.inCall = callFlagDisconnected
        · by_cases hncE : u.ncSessionID = ""
          · refine ⟨?_, by simpa [sigStep, hintf, hdisc, hncE] using hnd⟩
            intro t ht
            simp only [sigStep, hintf, hdisc, hncE] at ht ⊢
            simp only [Bool.false_eq_true, if_false, if_pos rfl, if_true] at ht ⊢
            exact hsub t ((mem_eraseStr _ _ _).mp ht).1
          · refine ⟨?_, ?_⟩
            · intro t ht
              simp only [sigStep, hintf, hdisc, hncE, Bool.false_eq_true,
                if_false, if_pos rfl, if_neg hncE, if_true] at ht ⊢
              obtain ⟨htt, htne⟩ := (mem_eraseStr _ _ _).mp ht
              obtain ⟨k0, hk0⟩ := (mem_avalues_iff _ _).mp (hsub t htt)
              refine (mem_avalues_iff _ _).mpr ⟨k0, mem_aerase_of_ne _ _ _ hk0 ?_⟩
              intro hke
              simp only at hke
              subst hke
              cases hlk : alookup st.ncSidMap u.ncSessionID with
              | none => exact alookup_ne_none_of_mem _ _ _ hk0 hlk
              | some hpb =>
                  have hcc : hpb = u.sessionID := by
                    simp only [updateConsistent, hlk] at hc
                    simp only [hintf, Bool.false_or] at hc
                    rcases Bool.or_eq_true_iff.mp hc with hc2 | hc2
                    · exact absurd (eq_of_beq hc2) hncE
                    · exact eq_of_beq hc2
                  have ht2 : alookup st.ncSidMap u.ncSessionID = some t :=
                    alookup_eq_of_mem_nodup _ _ _ hnd hk0
                  rw [hlk] at ht2
                  injection ht2 with ht3
                  exact htne (ht3.symm.trans hcc)
            · by_cases hx : u.ncSessionID = ""
              · exact absurd hx hncE
              · simp only [sigStep, hintf, hdisc, hncE, Bool.false_eq_true,
                  if_false, if_pos rfl, if_neg hncE, if_true]
                exact nodup_akeys_aerase _ _ hnd
        · by_cases hncE : u.ncSessionID = ""
          · exact ⟨by simpa [sigStep, hintf, hdisc, hncE] using hsub,
                   by simpa [sigStep, hintf, hdisc, hncE] using hnd⟩
          · have hval : ∀ t ∈ st.targets,
                t ∈ avalues (ainsert st.ncSidMap u.ncSessionID u.sessionID) := by
              intro t ht
              obtain ⟨k0, hk0⟩ := (mem_avalues_iff _ _).mp (hsub t ht)
              cases hlk : alookup st.ncSidMap u.ncSessionID with
              | none =>
                  rw [ainsert_append _ _ _ hlk]
                  exact (mem_avalues_iff _ _).mpr ⟨k0, List.mem_append_left _ hk0⟩
              | some hpb =>
                  have hcc : hpb = u.sessionID := by
                    simp only [updateConsistent, hlk] at hc
                    simp only [hintf, Bool.false_or] at hc
                    rcases Bool.or_eq_true_iff.mp hc with hc2 | hc2
                    · exact absurd (eq_of_beq hc2) hncE
                    · exact eq_of_beq hc2
                  rw [← hcc, ainsert_self _ _ _ hlk]
                  exact (mem_avalues_iff _ _).mpr ⟨k0, hk0⟩
            have hnew : u.sessionID ∈
                avalues (ainsert st.ncSidMap u.ncSessionID u.sessionID) := by
              cases hlk : alookup st.ncSidMap u.ncSessionID with
              | none =>
                  rw [ainsert_append _ _ _ hlk]
                  exact (mem_avalues_iff _ _).mpr
                    ⟨u.ncSessionID, List.mem_append_right _ (by simp)⟩
              | some hpb =>
                  have hcc : hpb = u.sessionID := by
                    simp only [updateConsistent, hlk] at hc
                    simp only [hintf, Bool.false_or] at hc
                    rcases Bool.or_eq_true_iff.mp hc with hc2 | hc2
                    · exact absurd (eq_of_beq hc2) hncE
                    · exact eq_of_beq hc2
                  rw [← hcc, ainsert_self _ _ _ hlk]
                  refine (mem_avalues_iff _ _).mpr ⟨u.ncSessionID, ?_⟩
                  exact alookup_mem _ _ _ hlk
            by_cases hst : u.ncSessionID ∈ st.ncSidWaitStash
            · refine ⟨?_, ?_⟩
              · intro t ht
                simp only [sigStep, hintf, hdisc, hncE, hst, Bool.false_eq_true,
                  if_false, if_pos, if_true] at ht ⊢
                rcases (mem_insertSet _ _ _).mp ht with ht2 | rfl
                · exact hval t ht2
                · exact hnew
              · simp only [sigStep, hintf, hdisc, hncE, hst, Bool.false_eq_true,
                  if_false, if_pos, if_true]
                exact nodup_akeys_ainsert _ _ _ hnd
            · refine ⟨?_, ?_⟩
              · intro t ht
                simp only [sigStep, hintf, hdisc, hncE, hst, Bool.false_eq_true,
                  if_false, if_pos, if_true] at ht ⊢
                exact hval t ht
              · simp only [sigStep, hintf, hdisc, hncE, hst, Bool.false_eq_true,
                  if_false, if_pos, if_true]
                exact nodup_akeys_ainsert _ _ _ hnd

/-- A consistent run preserves the C2 invariant. -/
theorem sigRun_inv :
    ∀ ops : List SigOp, ∀ st : SigState, sigInv st →
      consistentFrom st ops = true → sigInv (sigRun st ops) := by
  intro ops
  induction ops with
  | nil => intro st h _; exact h
  | cons op t ih =>
      intro st h hc
      simp only [consistentFrom, Bool.and_eq_true] at hc
      exact ih (sigStep st op) (sigStep_inv st op hc.1 h) hc.2

/-- C2 (amended). For every sequence of addTarget, removeTarget and
participants-update operations from a fresh client in which no update remaps
an already-mapped platform session id to a different transport session id,
every member of the target set is in the codomain of ncSidMap. -/
theorem c2_targets_in_codomain :
    ∀ ops : List SigOp, consistentFrom sigInit ops = true →
      ∀ t ∈ (sigRun sigInit ops).targets,
        t ∈ avalues (sigRun sigInit ops).ncSidMap := by
  intro ops hc
  exact (sigRun_inv ops sigInit ⟨by simp [sigInit], by simp [sigInit, akeys]⟩ hc).1

/-- The C2 counterexample operations: map P1 to T1, target P1, then a
participants update remaps P1 to T2. -/
def c2Ops : List SigOp :=
  [SigOp.userUpdate
     { sessionID := "T1", ncSessionID := "P1", inCall := 1, internal := false },
   SigOp.addTarget "P1",
   SigOp.userUpdate
     { sessionID := "T2", ncSessionID := "P1", inCall := 1, internal := false }]

/-- C2 (counterexample). After the remap, the stale transport sid T1 is still
in the target set but no platform sid maps to it: targets ⊆
codomain(ncSidMap) is violated at an observable instant (after a completed
participants-update event). -/
theorem c2_remap_counterexample :
    "T1" ∈ (sigRun sigInit c2Ops).targets ∧
    ¬ "T1" ∈ avalues (sigRun sigInit c2Ops).ncSidMap ∧
    (sigRun sigInit c2Ops).ncSidMap = [("P1", "T2")] := by decide

/-- The consistent run of the C2 witness: map P1 to T1 and target it. -/
def c2WitnessOps : List SigOp :=
  [SigOp.userUpdate
     { sessionID := "T1", ncSessionID := "P1", inCall := 1, internal := false },
   SigOp.addTarget "P1"]

/-- Witness for c2_targets_in_codomain on a concrete consistent run. -/
theorem c2_targets_in_codomain_witness :
    "T1" ∈ avalues (sigRun sigInit c2WitnessOps).ncSidMap :=
  c2_targets_in_codomain c2WitnessOps (by decide) "T1" (by decide)

/-- C10. (i) AddTarget on a platform sid with no entry in ncSidMap stashes
the sid, cancels any running deferred-close timer, and leaves the target set
and the map unchanged; in particular it never arms the timer. (ii) From the
post-connect state with an empty target set and the deferred-close timer
armed, such a pending add yields a state with an empty target set and no
timer running. -/
theorem c10_pending_add_stash :
    (∀ st : SigState, ∀ nc : String, alookup st.ncSidMap nc = none →
        sigStep st (SigOp.addTarget nc) =
          { targets := st.targets, ncSidMap := st.ncSidMap,
            ncSidWaitStash := insertSet st.ncSidWaitStash nc,
            deferredCloseTimer := false } ∧
        nc ∈ (sigStep st (SigOp.addTarget nc)).ncSidWaitStash) ∧
    ((sigStep
        { targets := [], ncSidMap := [], ncSidWaitStash := [],
          deferredCloseTimer := true } (SigOp.addTarget "P1")).targets = [] ∧
     (sigStep
        { targets := [], ncSidMap := [], ncSidWaitStash := [],
          deferredCloseTimer := true }
        (SigOp.addTarget "P1")).deferredCloseTimer = false) := by
  refine ⟨?_, by decide⟩
  intro st nc h
  refine ⟨by simp [sigStep, h], ?_⟩
  simp only [sigStep, h]
  exact (mem_insertSet _ _ _).mpr (Or.inr rfl)

/-- Witness for c10_pending_add_stash at a concrete state whose map does not
know P1. -/
theorem c10_pending_add_witness :
    sigStep
        { targets := ["T9"], ncSidMap := [("P2", "T2")], ncSidWaitStash := [],
          deferredCloseTimer := true } (SigOp.addTarget "P1") =
      { targets := ["T9"], ncSidMap := [("P2", "T2")],
        ncSidWaitStash := ["P1"], deferredCloseTimer := false } :=
  (c10_pending_add_stash.1
    { targets := ["T9"], ncSidMap := [("P2", "T2")], ncSidWaitStash := [],
      deferredCloseTimer := true } "P1" (by decide)).1

/-! ### Translation fan-out (MetaTranslator, AddTranslator)

The fan-out state: translators (target language → set of platform session
ids) and sidLangMap (platform session id → target language), plus the
shouldTranslate flag and whether the fan-out worker runs. support targetLang
abstracts the outcome of IsLanguagePairSupported for a translator newly
constructed at the current room language. -/

structure MTState where
  translators : List (String × List String)
  sidLangMap : List (String × String)
  shouldTranslate : Bool
  running : Bool
  deriving DecidableEq

/-- NewMetaTranslator. -/
def mtInit : MTState :=
  { translators := [], sidLangMap := [], shouldTranslate := false,
    running := false }

/-- MetaTranslator.removeTranslatorLocked: drop the sid from its translator's
session set; delete the translator when the set empties. -/
def removeTranslatorLocked (st : MTState) (targetLang ncSid : String) : MTState :=
  match alookup st.translators targetLang with
  | none => st
  | some sids =>
      if eraseStr sids ncSid = [] then
        { st with translators := aerase st.translators targetLang }
      else
        { st with translators := ainsert st.translators targetLang (eraseStr sids ncSid) }

/-- OCPTranslator.AddSessionID through the translators map. -/
def addSessionToTranslator (st : MTState) (targetLang ncSid : String) : MTState :=
  match alookup st.translators targetLang with
  | none => st
  | some sids =>
      { st with translators := ainsert st.translators targetLang (insertSet sids ncSid) }

/-- MetaTranslator.AddTranslator: a no-op when the sid already maps to the
target; a previous different mapping is first removed; the sid is mapped,
a missing translator is constructed and its language-pair support checked
(on failure the sid's mapping is deleted and the error returned), the sid is
added to the translator's set, shouldTranslate is set and the worker
started. The Bool result is the returned error. -/
def addTranslatorGo (support : String → Bool) (st0 : MTState)
    (targetLang ncSid : String) : MTState × Bool :=
  let go : MTState → MTState × Bool := fun st =>
    let st1 := { st with sidLangMap := ainsert st.sidLangMap ncSid targetLang }
    match alookup st1.translators targetLang with
    | some _ =>
        let st2 := addSessionToTranslator st1 targetLang ncSid
        ({ st2 with shouldTranslate := true, running := true }, false)
    | none =>
        if support targetLang then
          let st2 := { st1 with translators := ainsert st1.translators targetLang [] }
          let st3 := addSessionToTranslator st2 targetLang ncSid
          ({ st3 with shouldTranslate := true, running := true }, false)
        else
          ({ st1 with sidLangMap := aerase st1.sidLangMap ncSid }, true)
  match alookup st0.sidLangMap ncSid with
  | some existing =>
      if existing = targetLang then (st0, false)
      else go (removeTranslatorLocked st0 existing ncSid)
  | none => go st0

theorem aerase_append {β : Type} (l1 l2 : List (String × β)) (k : String) :
    aerase (l1 ++ l2) k = aerase l1 k ++ aerase l2 k := by
  induction l1 with
  | nil => simp [aerase]
  | cons p t ih =>
      obtain ⟨k', v'⟩ := p
      by_cases h : k' = k <;> simp [aerase, h, ih]

theorem aerase_of_none {β : Type} (l : List (String × β)) (k : String)
    (h : alookup l k = none) : aerase l k = l := by
  induction l with
  | nil => rfl
  | cons p t ih =>
      obtain ⟨k', v'⟩ := p
      by_cases hk : k' = k
      · simp [alookup_cons, hk] at h
      · simp only [alookup_cons, if_neg hk] at h
        simp [aerase, hk, ih h]

/-- C4 (amended). When the target translator does not exist and the
language-pair check fails, the error is propagated; if the platform sid had
no previous target-language mapping, the fan-out state is exactly as before
the call; if it had one, the error is still propagated but the previous
mapping is not restored: the sid ends with no mapping at all (its membership
in the previous translator has also been removed by
removeTranslatorLocked). -/
theorem c4_add_translator_rollback :
    (∀ support : String → Bool, ∀ st : MTState, ∀ targetLang ncSid : String,
        alookup st.sidLangMap ncSid = none →
        alookup st.translators targetLang = none →
        support targetLang = false →
        addTranslatorGo support st targetLang ncSid = (st, true)) ∧
    (∀ support : String → Bool, ∀ st : MTState,
        ∀ targetLang ncSid prevLang : String,
        alookup st.sidLangMap ncSid = some prevLang →
        prevLang ≠ targetLang →
        alookup (removeTranslatorLocked st prevLang ncSid).translators
          targetLang = none →
        support targetLang = false →
        (addTranslatorGo support st targetLang ncSid).2 = true ∧
        alookup (addTranslatorGo support st targetLang ncSid).1.sidLangMap
          ncSid = none) := by
  constructor
  · intro support st targetLang ncSid hmap htr hsup
    simp only [addTranslatorGo, hmap, htr, hsup, Bool.false_eq_true, if_false]
    have h1 : aerase (ainsert st.sidLangMap ncSid targetLang) ncSid =
        st.sidLangMap := by
      rw [ainsert_append _ _ _ hmap, aerase_append, aerase_of_none _ _ hmap]
      simp [aerase]
    rw [h1]
  · intro support st targetLang ncSid prevLang hmap hne htr hsup
    have hne2 : ¬ prevLang = targetLang := hne
    simp only [addTranslatorGo, hmap, hne2, if_false]
    have hmap2 : (removeTranslatorLocked st prevLang ncSid).sidLangMap =
        st.sidLangMap := by
      unfold removeTranslatorLocked
      cases alookup st.translators prevLang with
      | none => rfl
      | some sids => by_cases h : eraseStr sids ncSid = [] <;> simp [h]
    simp only [htr, hsup, Bool.false_eq_true, if_false]
    refine ⟨trivial, ?_⟩
    simp only [hmap2]
    rw [alookup_aerase]
    simp

/-- The support oracle of the C4 counterexample: only fr is supported. -/
def c4Support : String → Bool := fun l => l == "fr"

/-- The C4 counterexample's starting state: platform sid P already receives
fr translations. -/
def c4St : MTState := (addTranslatorGo c4Support mtInit "fr" "P").1

/-- C4 (counterexample). Adding an unsupported target de for a sid that
previously mapped to fr propagates the error but does not leave the fan-out
state as it was: the previous fr mapping of P is gone (P is unmapped, the fr
translator deleted), so the claim that the state is exactly as before the
call is false when the sid had a previous mapping. -/
theorem c4_prev_mapping_lost_counterexample :
    (addTranslatorGo c4Support c4St "de" "P").2 = true ∧
    ¬ (addTranslatorGo c4Support c4St "de" "P").1 = c4St ∧
    alookup c4St.sidLangMap "P" = some "fr" ∧
    alookup (addTranslatorGo c4Support c4St "de" "P").1.sidLangMap "P" = none ∧
    (addTranslatorGo c4Support c4St "de" "P").1.translators = [] := by decide

/-- Witness for c4_add_translator_rollback: exact rollback for a sid with no
previous mapping, and the lost previous mapping of the counterexample
state. -/
theorem c4_add_translator_witness :
    addTranslatorGo (fun _ => false) mtInit "de" "P" = (mtInit, true) ∧
    alookup (addTranslatorGo c4Support c4St "de" "P").1.sidLangMap "P" = none :=
  ⟨c4_add_translator_rollback.1 (fun _ => false) mtInit "de" "P" rfl rfl rfl,
   (c4_add_translator_rollback.2 c4Support c4St "de" "P" "fr" (by decide)
      (by decide) (by decide) (by decide)).2⟩
